import Mathlib

/-!
Verification of the credential-lifecycle core of the hc-vault client library.

The definitions below are a shallow embedding of the Rust sources:
  - src/errors.rs           (Error, RenewError, the status-code mapping)
  - src/client.rs           (Client::check_session, Client::renew_background,
                             Client::vault_request status dispatch)
  - src/token/auth.rs       (the static-token auth backend)
  - src/approle/auth.rs     (the approle auth backend: is_expired, renew)
  - src/kubernetes/auth.rs  (the kubernetes auth backend: is_expired, renew)
  - src/internals/token_container.rs (TokenContainer)

Machine integers (u64) are modelled as Nat with explicit wrap-around or
underflow checks where subtraction can underflow.  Network calls are
modelled by passing their observable outcome (status code, parsed response,
Ok or Err result) as explicit parameters.  Clock reads are modelled as
explicit timestamp parameters.
-/

namespace HcVault

/-- The error taxonomy of errors.rs lines 4-35.  The payload of the
ParseError, ReqwestError and IOError variants (the underlying cause) is
irrelevant to the claims and dropped. -/
inductive Error
  | ParseError
  | ReqwestError
  | IOError
  | InvalidRequest
  | IsSealed
  | NotFound
  | Unauthorized
  | SessionExpired
  | Other
  deriving DecidableEq, Repr

/-- The renewal-loop error taxonomy of errors.rs lines 86-95. -/
inductive RenewError
  | AuthError (cause : Error)
  | NotEnabled
  | NotRenewable
  deriving DecidableEq, Repr

/-- impl From of Error for RenewError, errors.rs lines 109-113. -/
def RenewError.from_error (cause : Error) : RenewError := .AuthError cause

/-- The status-code mapping of errors.rs lines 73-83 (impl From of u16 for
Error, also called from_status_code at its call sites):
400, 403, 404 and 503 map to their dedicated variants, everything else to
Other.  The Rust match on u16 literals is rendered as a chain of equality
tests. -/
def Error.from_status_code (cause : Nat) : Error :=
  if cause = 400 then .InvalidRequest
  else if cause = 403 then .Unauthorized
  else if cause = 404 then .NotFound
  else if cause = 503 then .IsSealed
  else .Other

/-- The status dispatch at the end of Client::vault_request, client.rs lines
154-159: status 200 or 204 is success, every other status is mapped through
Error::from. -/
def vault_request_status (status_code : Nat) : Except Error Unit :=
  if status_code = 200 ∨ status_code = 204 then .ok ()
  else .error (Error.from_status_code status_code)

/-- The RenewPolicy enum: Reauth, Nothing and Renew(threshold) as matched by
client.rs lines 46-49 and 99-102 (the threshold is an f32 in the source,
modelled as a rational). -/
inductive RenewPolicy
  | Reauth
  | Nothing
  | Renew (threshold : Rat)

/-- Size bound of the Rust u64 type. -/
def U64_LIMIT : Nat := 2 ^ 64

/-- Rust u64 wrapping subtraction a - b (release-mode overflow semantics),
for operands reduced into the u64 range. -/
def u64_wrapping_sub (a b : Nat) : Nat :=
  (a % U64_LIMIT + (U64_LIMIT - b % U64_LIMIT)) % U64_LIMIT

/-- Rust u64 checked subtraction: some (a - b) when b does not exceed a,
none when the subtraction would underflow (the case that panics in a
debug build). -/
def u64_checked_sub (a b : Nat) : Option Nat :=
  if b ≤ a then some (a - b) else none

/-- Session::is_expired of the TokenContainer-backed backends
(approle/auth.rs lines 75-83 and kubernetes/auth.rs lines 66-77):
elapsed = current_time - start_time in u64 arithmetic, and the session is
expired iff elapsed >= duration.  current_time stands for the value of
now_timestamp() at the call and start_time, duration for the values stored
in the TokenContainer. -/
def is_expired (current_time start_time duration : Nat) : Bool :=
  let elapsed := u64_wrapping_sub current_time start_time
  decide (duration ≤ elapsed)

/-- is_expired with the u64 subtraction modelled as checked: none models the
underflow panic of a debug build when start_time lies in the future. -/
def is_expired_checked (current_time start_time duration : Nat) : Option Bool :=
  (u64_checked_sub current_time start_time).map fun elapsed =>
    decide (duration ≤ elapsed)

/-- The static-token auth session of token/auth.rs lines 8-12.  Instant is a
monotone clock with seconds resolution, modelled as Nat. -/
structure TokenSession where
  token : String
  token_start : Nat
  token_duration : Nat

/-- token/auth.rs lines 15-17: token_start.elapsed() >= token_duration.
now stands for the current instant; the Instant clock is monotone, so now is
never before token_start and elapsed is now - token_start. -/
def TokenSession.is_expired (s : TokenSession) (now : Nat) : Bool :=
  decide (s.token_duration ≤ now - s.token_start)

/-- token/auth.rs lines 18-20: returns a copy of the stored token. -/
def TokenSession.get_token (s : TokenSession) : String :=
  s.token

/-- token/auth.rs lines 21-23: auth ignores the url and returns Ok(()). -/
def TokenSession.auth (_s : TokenSession) (_vault_url : String) :
    Except Error Unit :=
  .ok ()

/-- token/auth.rs lines 24-26: is_renewable returns true. -/
def TokenSession.is_renewable (_s : TokenSession) : Bool :=
  true

/-- token/auth.rs lines 27-29: get_total_duration returns 0. -/
def TokenSession.get_total_duration (_s : TokenSession) : Nat :=
  0

/-- token/auth.rs lines 30-32: renew ignores the url and returns Ok(()). -/
def TokenSession.renew (_s : TokenSession) (_vault_url : String) :
    Except Error Unit :=
  .ok ()

/-- What one call to Client::check_session returns and does, beyond its
Result: whether the reauth mutex was taken and how many times
backend.auth was called. -/
structure CheckOutcome where
  result : Except Error Unit
  lock_taken : Bool
  auth_calls : Nat

/-- Client::check_session, client.rs lines 85-105, as a function of the
values its two is_expired() reads return and of the outcome of
backend.auth if called: e1 is the value of auth.is_expired() at the fast
pre-lock check, e2 its value at the re-check under the reauth mutex, and
auth_result the Result of self.auth.auth(vault_url).  The function
returns Ok(()) without taking the mutex when e1 is false; returns Ok(())
under the mutex without calling the backend when e2 is false; and
otherwise dispatches on the renew policy: Reauth propagates auth_result
after exactly one auth call, Nothing and Renew(_) return SessionExpired
without calling the backend. -/
def check_session (e1 e2 : Bool) (policy : RenewPolicy)
    (auth_result : Except Error Unit) : CheckOutcome :=
  if !e1 then ⟨.ok (), false, 0⟩
  else if !e2 then ⟨.ok (), true, 0⟩
  else
    match policy with
    | .Reauth => ⟨auth_result, true, 1⟩
    | .Nothing => ⟨.error .SessionExpired, true, 0⟩
    | .Renew _ => ⟨.error .SessionExpired, true, 0⟩

/-- Round a rational to the nearest integer with ties to even: the
rounding IEEE-754 applies to the scaled 24-bit significand. -/
def roundTiesEven (q : Rat) : Int :=
  if q - ⌊q⌋ < 1 / 2 then ⌊q⌋
  else if 1 / 2 < q - ⌊q⌋ then ⌊q⌋ + 1
  else if 2 ∣ ⌊q⌋ then ⌊q⌋ else ⌊q⌋ + 1

/-- The IEEE-754 binary32 (f32) rounding, to nearest with ties to even,
of a nonnegative rational: the binade exponent is Int.log 2 q, clamped
below at -126 so that values under the normal range round on the
subnormal quantum 2^(-149); the significand is rounded at 24 bits.  A
result of 2^128 or more stands for the f32 infinity, which the
downstream as-u64 cast saturates exactly like any finite value at or
above 2^64.  A nonpositive input is mapped to 0; waitDurationSecs feeds
the product to the cast only for thresholds of at most 1, where every
intermediate value is nonnegative. -/
def roundF32 (q : Rat) : Rat :=
  if q ≤ 0 then 0
  else
    (roundTiesEven (q * 2 ^ (23 - max (Int.log 2 q) (-126))) : Rat) *
      2 ^ (max (Int.log 2 q) (-126) - 23)

/-- The sleep computation of Client::renew_background, client.rs lines
56-60: wait = ((total_duration as f32) * (1.0 - threshold)) as u64.
The threshold parameter carries the exact rational value of the f32
threshold from the config.  total_duration is rounded to f32,
wait_percentage = 1.0 - threshold is the f32 subtraction (the rounding
of the exact difference, nonpositive when the threshold reaches 1, in
which case the product casts to 0), the multiplication rounds the exact
product, and the as-u64 cast truncates toward zero and saturates at
2^64 - 1. -/
def waitDurationSecs (total_duration : Nat) (threshold : Rat) : Nat :=
  if 1 ≤ threshold then 0
  else
    min ((⌊roundF32 (roundF32 (total_duration : Rat) *
      roundF32 (1 - threshold))⌋).toNat) (2 ^ 64 - 1)

/-- The behaviour of the auth backend at one iteration of the renewal
loop: what is_renewable() reports, what get_total_duration() reports, and
the Result renew() would return if called. -/
structure RenewIter where
  renewable : Bool
  total_duration : Nat
  renew_result : Except Error Unit

/-- What a run of the renewal loop did: the terminal error if the loop
exited (none when the supplied iteration behaviours were exhausted with
the loop still running), the number of renew() calls made, and the
seconds slept before each renew() call, in order. -/
structure LoopOutcome where
  result : Option RenewError
  renew_calls : Nat
  sleeps : List Nat

/-- The body of the infinite loop of Client::renew_background, client.rs
lines 51-70, run against a finite list of per-iteration backend
behaviours: each iteration returns NotRenewable if the backend is not
renewable, otherwise sleeps waitDurationSecs of the reported duration,
calls renew, and either continues on Ok or terminates with the error
wrapped through RenewError::from. -/
def renew_loop (threshold : Rat) : List RenewIter → LoopOutcome
  | [] => ⟨none, 0, []⟩
  | it :: rest =>
    if !it.renewable then ⟨some .NotRenewable, 0, []⟩
    else
      let wait := waitDurationSecs it.total_duration threshold
      match it.renew_result with
      | .error e => ⟨some (RenewError.from_error e), 1, [wait]⟩
      | .ok _ =>
        let o := renew_loop threshold rest
        ⟨o.result, o.renew_calls + 1, wait :: o.sleeps⟩

/-- Client::renew_background, client.rs lines 45-71: policies other than
Renew(_) return NotEnabled before the loop is entered; under Renew(t) the
loop runs with threshold t. -/
def renew_background (policy : RenewPolicy) (iters : List RenewIter) :
    LoopOutcome :=
  match policy with
  | .Renew t => renew_loop t iters
  | _ => ⟨some .NotEnabled, 0, []⟩

/-- The state of internals/token_container.rs TokenContainer: an
AtomicPtr to a heap-allocated String plus three atomic scalars.  The
token pointer is modelled as Option String, none standing for a null
pointer (the only case in which get_token returns None). -/
structure TokenContainer where
  token : Option String
  start : Nat
  duration : Nat
  renewable : Bool
  deriving DecidableEq

/-- TokenContainer::new, token_container.rs lines 15-27: the pointer is
initialised to a freshly boxed empty string, never to null. -/
def TokenContainer.new : TokenContainer :=
  ⟨some "", 0, 0, false⟩

/-- TokenContainer::get_token, token_container.rs lines 59-65: None when
the stored pointer is null, otherwise a clone of the referent. -/
def TokenContainer.get_token (c : TokenContainer) : Option String :=
  c.token

/-- One write against a TokenContainer: set_token, set_start,
set_duration or set_renewable (token_container.rs lines 67-111). -/
inductive ContainerWrite
  | set_token (t : String)
  | set_start (n : Nat)
  | set_duration (n : Nat)
  | set_renewable (b : Bool)
  deriving DecidableEq

/-- The effect of one TokenContainer write: set_token swaps in a pointer
to a freshly boxed string (never null), the others store a scalar. -/
def apply_write (c : TokenContainer) : ContainerWrite → TokenContainer
  | .set_token t => { c with token := some t }
  | .set_start n => { c with start := n }
  | .set_duration n => { c with duration := n }
  | .set_renewable b => { c with renewable := b }

/-- A sequence of TokenContainer writes, applied in order. -/
def apply_writes (c : TokenContainer) (ws : List ContainerWrite) :
    TokenContainer :=
  ws.foldl apply_write c

/-- Session::get_token of the TokenContainer-backed backends
(approle/auth.rs lines 84-95, kubernetes/auth.rs lines 79-88): the empty
string when the container returns None, otherwise the stored token. -/
def session_get_token (c : TokenContainer) : String :=
  match c.get_token with
  | none => ""
  | some s => s

/-- The auth part of a successful renew-self response, approle/auth.rs
lines 47-58 (RenewAuth) and kubernetes/auth.rs lines 44-51 (GeneralAuth):
both carry renewable, lease_duration and a client_token. -/
structure RenewAuth where
  renewable : Bool
  lease_duration : Nat
  client_token : String

/-- The TokenContainer writes performed by Session::renew on a successful
renew response, in source order: approle/auth.rs lines 158-162 and
kubernetes/auth.rs lines 197-201 both write the renewable flag, then the
start time (the current timestamp), then the duration.  Neither variant
writes the token: the client_token of the response is ignored, so the
cached token value is preserved and the renew trace contains no token
write at all. -/
def renew_writes (current_time : Nat) (data : RenewAuth) :
    List ContainerWrite :=
  [.set_renewable data.renewable, .set_start current_time,
   .set_duration data.lease_duration]

/-- Program location of one thread running Client::check_session
(client.rs lines 85-105) under RenewPolicy::Reauth:
  ready     about to run the fast pre-lock is_expired() check (line 86);
  waiting   observed expired, blocked on reauth_mutex.lock() (line 91);
  critical  holds the mutex, about to re-run is_expired() (line 95);
  authDone  auth() has stored the new token over the network and set the
            renewable flag, but has not yet published the new start time
            and duration (approle/auth.rs lines 116-118), so is_expired()
            still reads true;
  published auth() has published the new start and duration (lines
            124-125), is_expired() now reads false, mutex still held;
  finished  returned Ok(()) and released the mutex. -/
inductive Loc
  | ready
  | waiting
  | critical
  | authDone
  | published
  | finished
  deriving DecidableEq

/-- Shared state of n threads racing one expired credential through
check_session.  expired is the value is_expired() reads from the
published (start, duration) pair; token_gen identifies the stored token
value (0 the stale token, 1 the newly issued one); net_calls counts the
login requests sent by auth().  The scenario of the claim: policy
Reauth, one already-expired credential, a login endpoint that answers
the (single) login request successfully. -/
structure SfState (n : Nat) where
  loc : Fin n → Loc
  locked : Bool
  expired : Bool
  token_gen : Nat
  net_calls : Nat

/-- Pointwise update of a thread location map. -/
def updLoc {n : Nat} (f : Fin n → Loc) (i : Fin n) (v : Loc) :
    Fin n → Loc :=
  fun j => if j = i then v else f j

/-- Interleaving semantics of n concurrent check_session calls: one
thread takes one atomic action.  The fast check, the lock acquisition,
the re-check, the auth token swap and the publication of the new times
are each atomic; the mutex is released when the call returns. -/
inductive SfStep {n : Nat} : SfState n → SfState n → Prop
  | fast_fresh (s : SfState n) (i : Fin n)
      (hl : s.loc i = .ready) (he : s.expired = false) :
      SfStep s { s with loc := updLoc s.loc i .finished }
  | fast_expired (s : SfState n) (i : Fin n)
      (hl : s.loc i = .ready) (he : s.expired = true) :
      SfStep s { s with loc := updLoc s.loc i .waiting }
  | acquire (s : SfState n) (i : Fin n)
      (hl : s.loc i = .waiting) (hm : s.locked = false) :
      SfStep s { s with loc := updLoc s.loc i .critical, locked := true }
  | recheck_fresh (s : SfState n) (i : Fin n)
      (hl : s.loc i = .critical) (he : s.expired = false) :
      SfStep s { s with loc := updLoc s.loc i .finished, locked := false }
  | do_auth (s : SfState n) (i : Fin n)
      (hl : s.loc i = .critical) (he : s.expired = true) :
      SfStep s { s with loc := updLoc s.loc i .authDone, token_gen := 1,
                        net_calls := s.net_calls + 1 }
  | publish_times (s : SfState n) (i : Fin n)
      (hl : s.loc i = .authDone) :
      SfStep s { s with loc := updLoc s.loc i .published, expired := false }
  | release (s : SfState n) (i : Fin n)
      (hl : s.loc i = .published) :
      SfStep s { s with loc := updLoc s.loc i .finished, locked := false }

/-- Initial configuration of the race: every thread about to enter
check_session, the mutex free, the credential expired, the stale token
cached, no login request sent yet. -/
def sfInit (n : Nat) : SfState n :=
  { loc := fun _ => .ready, locked := false, expired := true,
    token_gen := 0, net_calls := 0 }

/-- Reachability along the interleaving semantics. -/
def SfReach {n : Nat} : SfState n → SfState n → Prop :=
  Relation.ReflTransGen SfStep

/-- A location at which the thread holds the reauth mutex. -/
def gateLoc : Loc → Prop := fun l =>
  l = .critical ∨ l = .authDone ∨ l = .published

/-- The inductive invariant of the race: the mutex is held by at most one
thread and only while locked; as long as no login request has been sent
the credential is still the stale expired one and nobody got past the
re-check; once one has been sent there is exactly one, the fresh token is
cached, and is_expired() can only still read true while the one
authenticating thread has not yet published the new times. -/
def SfInv {n : Nat} (s : SfState n) : Prop :=
  (s.locked = false → ∀ i, ¬ gateLoc (s.loc i)) ∧
  (∀ i j, gateLoc (s.loc i) → gateLoc (s.loc j) → i = j) ∧
  (s.net_calls = 0 →
    s.expired = true ∧ s.token_gen = 0 ∧
    ∀ i, s.loc i = .ready ∨ s.loc i = .waiting ∨ s.loc i = .critical) ∧
  (s.net_calls ≠ 0 →
    s.net_calls = 1 ∧ s.token_gen = 1 ∧
    (s.expired = true → ∃ i, s.loc i = Loc.authDone))

/-- First intermediate configuration of a complete one-thread run of the
race: the thread has observed the expired credential. -/
def sfRun1 : SfState 1 :=
  { sfInit 1 with loc := updLoc (sfInit 1).loc 0 .waiting }

/-- Second intermediate configuration: the thread holds the reauth
mutex. -/
def sfRun2 : SfState 1 :=
  { sfRun1 with loc := updLoc sfRun1.loc 0 .critical, locked := true }

/-- Third intermediate configuration: auth() has sent the one login
request and stored the fresh token. -/
def sfRun3 : SfState 1 :=
  { sfRun2 with loc := updLoc sfRun2.loc 0 .authDone, token_gen := 1,
                net_calls := sfRun2.net_calls + 1 }

/-- Fourth intermediate configuration: auth() has published the new
start time and duration. -/
def sfRun4 : SfState 1 :=
  { sfRun3 with loc := updLoc sfRun3.loc 0 .published, expired := false }

/-- Final configuration of the one-thread run: the call has returned and
released the mutex. -/
def sfRun5 : SfState 1 :=
  { sfRun4 with loc := updLoc sfRun4.loc 0 .finished, locked := false }

/-- u64 wrapping subtraction agrees with exact subtraction when there is
no underflow and the minuend is in range. -/
theorem u64_wrapping_sub_eq (a b : Nat) (hba : b ≤ a) (ha : a < U64_LIMIT) :
    u64_wrapping_sub a b = a - b := by
  have hb : b < U64_LIMIT := lt_of_le_of_lt hba ha
  unfold u64_wrapping_sub
  rw [Nat.mod_eq_of_lt ha, Nat.mod_eq_of_lt hb]
  have h1 : a + (U64_LIMIT - b) = U64_LIMIT + (a - b) := by omega
  rw [h1, Nat.add_mod_left]
  exact Nat.mod_eq_of_lt (by omega)

/-- C3: for every stored validity duration D and elapsed time
E = now - start, is_expired returns true iff E >= D (for both the
TokenContainer-backed backends and the static-token backend); in
particular it returns false at E = D - 1 and true at E = D. -/
theorem is_expired_iff_elapsed_ge_duration (start_time E D : Nat)
    (h : start_time + E < U64_LIMIT) :
    (is_expired (start_time + E) start_time D = true ↔ D ≤ E) ∧
    (TokenSession.is_expired ⟨"", start_time, D⟩ (start_time + E) =
      decide (D ≤ E)) ∧
    (1 ≤ D → start_time + D < U64_LIMIT →
      is_expired (start_time + (D - 1)) start_time D = false ∧
      is_expired (start_time + D) start_time D = true) := by
  have key : ∀ E2, start_time + E2 < U64_LIMIT →
      is_expired (start_time + E2) start_time D = decide (D ≤ E2) := by
    intro E2 h2
    unfold is_expired
    rw [u64_wrapping_sub_eq _ _ (Nat.le_add_right _ _) h2]
    simp [Nat.add_sub_cancel_left]
  refine ⟨?_, ?_, ?_⟩
  · rw [key E h]
    simp
  · unfold TokenSession.is_expired
    simp [Nat.add_sub_cancel_left]
  · intro hD hDlt
    constructor
    · rw [key (D - 1) (by omega)]
      simp
      omega
    · rw [key D hDlt]
      simp

/-- Witness for C3 at start time 100, duration 5: not yet expired one
second before the boundary, expired exactly at it. -/
theorem is_expired_iff_elapsed_ge_duration_witness :
    (is_expired (100 + 5) 100 5 = true ↔ 5 ≤ 5) ∧
    (TokenSession.is_expired ⟨"", 100, 5⟩ (100 + 5) = decide (5 ≤ 5)) ∧
    (1 ≤ 5 → 100 + 5 < U64_LIMIT →
      is_expired (100 + (5 - 1)) 100 5 = false ∧
      is_expired (100 + 5) 100 5 = true) :=
  is_expired_iff_elapsed_ge_duration 100 5 5 (by norm_num [U64_LIMIT])

/-- C9: under the precondition that the stored start time does not exceed
the current timestamp, the u64 subtraction in is_expired does not
underflow (the checked subtraction returns some and the function is
total, agreeing with the unchecked code); without the precondition a
start time in the future makes the subtraction underflow. -/
theorem is_expired_total_of_start_le (current_time start_time duration : Nat)
    (hle : start_time ≤ current_time) (hlt : current_time < U64_LIMIT) :
    u64_checked_sub current_time start_time =
      some (current_time - start_time) ∧
    is_expired_checked current_time start_time duration =
      some (is_expired current_time start_time duration) ∧
    ∀ c s : Nat, c < s → u64_checked_sub c s = none := by
  refine ⟨?_, ?_, ?_⟩
  · simp [u64_checked_sub, hle]
  · simp [is_expired_checked, u64_checked_sub, hle, is_expired,
      u64_wrapping_sub_eq _ _ hle hlt]
  · intro c s hcs
    unfold u64_checked_sub
    rw [if_neg (by omega)]

/-- Witness for C9 at current time 10, start time 3, duration 5. -/
theorem is_expired_total_of_start_le_witness :
    u64_checked_sub 10 3 = some (10 - 3) ∧
    is_expired_checked 10 3 5 = some (is_expired 10 3 5) ∧
    ∀ c s : Nat, c < s → u64_checked_sub c s = none :=
  is_expired_total_of_start_le 10 3 5 (by norm_num) (by norm_num [U64_LIMIT])

/-- C5 counterexample: the static-token backend does not report itself
as non-renewable; token/auth.rs lines 24-26 return true from
is_renewable. -/
theorem token_is_renewable_not_false :
    ¬ (TokenSession.is_renewable ⟨"tok", 0, 60⟩ = false) := by
  decide

/-- C5 (amended): for the static-token backend, auth() is a no-op that
always returns Ok(()) and renew() is a no-op that always returns Ok(());
the backend reports itself as renewable (is_renewable() returns true)
while reporting a total validity duration of 0. -/
theorem token_backend_noop_auth_renew (s : TokenSession) (url : String) :
    s.auth url = .ok () ∧ s.renew url = .ok () ∧
    s.is_renewable = true ∧ s.get_total_duration = 0 :=
  ⟨rfl, rfl, rfl, rfl⟩

/-- C8: the request dispatcher maps 200 and 204 to success, 400 to
InvalidRequest, 403 to Unauthorized, 404 to NotFound, 503 to the
sealed/service-unavailable error, and every other non-2xx status to
Other. -/
theorem vault_request_status_mapping :
    vault_request_status 200 = .ok () ∧
    vault_request_status 204 = .ok () ∧
    vault_request_status 400 = .error .InvalidRequest ∧
    vault_request_status 403 = .error .Unauthorized ∧
    vault_request_status 404 = .error .NotFound ∧
    vault_request_status 503 = .error .IsSealed ∧
    ∀ c : Nat, ¬ (200 ≤ c ∧ c < 300) →
      c ≠ 400 → c ≠ 403 → c ≠ 404 → c ≠ 503 →
      vault_request_status c = .error .Other := by
  refine ⟨rfl, rfl, rfl, rfl, rfl, rfl, ?_⟩
  intro c h2 h400 h403 h404 h503
  unfold vault_request_status Error.from_status_code
  rw [if_neg (by omega), if_neg h400, if_neg h403, if_neg h404, if_neg h503]

/-- C2: check_session returns Ok without taking the lock or calling the
backend when the fast expiry check reads false; when the re-check under
the gate still reads true it calls auth exactly once and propagates its
Result under policy Reauth, and returns SessionExpired with no backend
call under policy Nothing or Renew(_). -/
theorem check_session_dispatch (e2 : Bool) (r : Except Error Unit)
    (t : Rat) :
    (∀ policy, check_session false e2 policy r = ⟨.ok (), false, 0⟩) ∧
    check_session true true .Reauth r = ⟨r, true, 1⟩ ∧
    check_session true true .Nothing r =
      ⟨.error .SessionExpired, true, 0⟩ ∧
    check_session true true (.Renew t) r =
      ⟨.error .SessionExpired, true, 0⟩ :=
  ⟨fun _ => rfl, rfl, rfl, rfl⟩

/-- C4: a successful renew on the approle or kubernetes backend
preserves the cached token value (the renew endpoint response is never
consulted for a token, so in particular the token is preserved whenever
the endpoint supplies none), while the start time, validity duration and
renewable flag are all updated; the write trace contains no token write
at all, so the freshness fields (start, duration) are written only after
the token field is settled. -/
theorem renew_preserves_token (c : TokenContainer) (now : Nat)
    (data : RenewAuth) :
    (apply_writes c (renew_writes now data)).token = c.token ∧
    (apply_writes c (renew_writes now data)).start = now ∧
    (apply_writes c (renew_writes now data)).duration =
      data.lease_duration ∧
    (apply_writes c (renew_writes now data)).renewable =
      data.renewable ∧
    ∀ w ∈ renew_writes now data, ∀ tok,
      w ≠ ContainerWrite.set_token tok := by
  refine ⟨rfl, rfl, rfl, rfl, ?_⟩
  intro w hw tok
  simp only [renew_writes, List.mem_cons, List.not_mem_nil, or_false]
    at hw
  rcases hw with h | h | h <;> subst h <;> simp

/-- Every single TokenContainer write keeps the token pointer non-null. -/
theorem apply_write_token_isSome (c : TokenContainer) (w : ContainerWrite)
    (h : c.token.isSome = true) :
    ((apply_write c w).token).isSome = true := by
  cases w <;> simp [apply_write] <;> exact h

/-- Every sequence of TokenContainer writes keeps the token pointer
non-null. -/
theorem apply_writes_token_isSome (ws : List ContainerWrite) :
    ∀ c : TokenContainer, c.token.isSome = true →
      ((apply_writes c ws).token).isSome = true := by
  induction ws with
  | nil => exact fun c h => h
  | cons w rest ih =>
    intro c h
    exact ih _ (apply_write_token_isSome c w h)

/-- C10: from construction by new() and across every sequence of
set_token/set_start/set_duration/set_renewable operations, the token
pointer is never null: get_token() always returns Some (the empty string
before any login), so the None fallback in Session::get_token is
unreachable and the get_token().unwrap() in renew() cannot panic. -/
theorem token_pointer_never_null (ws : List ContainerWrite) :
    TokenContainer.new.get_token = some "" ∧
    ∃ s : String,
      (apply_writes TokenContainer.new ws).get_token = some s ∧
      session_get_token (apply_writes TokenContainer.new ws) = s := by
  refine ⟨rfl, ?_⟩
  have h := apply_writes_token_isSome ws TokenContainer.new rfl
  rcases Option.isSome_iff_exists.mp h with ⟨s, hs⟩
  exact ⟨s, hs, by simp [session_get_token, TokenContainer.get_token, hs]⟩

/-- Iterations on which the backend is renewable and renew succeeds pass
straight through the renewal loop, adding one renew call each. -/
theorem renew_loop_skip_ok (t : Rat) (pre rest : List RenewIter)
    (hpre : ∀ p ∈ pre, p.renewable = true ∧ p.renew_result = .ok ()) :
    (renew_loop t (pre ++ rest)).result = (renew_loop t rest).result ∧
    (renew_loop t (pre ++ rest)).renew_calls =
      (renew_loop t rest).renew_calls + pre.length := by
  induction pre with
  | nil => simp
  | cons p ps ih =>
    have hp := hpre p (List.mem_cons_self p ps)
    have hps : ∀ q ∈ ps, q.renewable = true ∧ q.renew_result = .ok () :=
      fun q hq => hpre q (List.mem_cons_of_mem p hq)
    obtain ⟨ih1, ih2⟩ := ih hps
    constructor
    · simp [renew_loop, hp.1, hp.2, ih1]
    · simp [renew_loop, hp.1, hp.2, ih2]
      omega

/-- C7: renew_background returns NotEnabled immediately (zero renew
calls) whenever the policy is not Renew(_); it terminates with
NotRenewable, without a further renew call, as soon as the backend
reports the credential not renewable; and the first failed renew call
terminates the loop permanently with that error wrapped as AuthError,
with no retry. -/
theorem renew_background_terminal_errors :
    (∀ (policy : RenewPolicy) (iters : List RenewIter),
      (∀ t, policy ≠ .Renew t) →
      renew_background policy iters = ⟨some .NotEnabled, 0, []⟩) ∧
    (∀ (t : Rat) (pre : List RenewIter) (it : RenewIter)
        (rest : List RenewIter),
      (∀ p ∈ pre, p.renewable = true ∧ p.renew_result = .ok ()) →
      it.renewable = false →
      (renew_background (.Renew t) (pre ++ it :: rest)).result =
        some .NotRenewable ∧
      (renew_background (.Renew t) (pre ++ it :: rest)).renew_calls =
        pre.length) ∧
    (∀ (t : Rat) (pre : List RenewIter) (it : RenewIter)
        (rest : List RenewIter) (e : Error),
      (∀ p ∈ pre, p.renewable = true ∧ p.renew_result = .ok ()) →
      it.renewable = true → it.renew_result = .error e →
      (renew_background (.Renew t) (pre ++ it :: rest)).result =
        some (RenewError.AuthError e) ∧
      (renew_background (.Renew t) (pre ++ it :: rest)).renew_calls =
        pre.length + 1) := by
  refine ⟨?_, ?_, ?_⟩
  · intro policy iters hne
    cases policy with
    | Reauth => rfl
    | Nothing => rfl
    | Renew t => exact absurd rfl (hne t)
  · intro t pre it rest hpre hit
    obtain ⟨h1, h2⟩ := renew_loop_skip_ok t pre (it :: rest) hpre
    have hone : renew_loop t (it :: rest) = ⟨some .NotRenewable, 0, []⟩ := by
      simp [renew_loop, hit]
    constructor
    · show (renew_loop t (pre ++ it :: rest)).result = _
      rw [h1, hone]
    · show (renew_loop t (pre ++ it :: rest)).renew_calls = _
      rw [h2, hone]
      simp
  · intro t pre it rest e hpre hit hres
    obtain ⟨h1, h2⟩ := renew_loop_skip_ok t pre (it :: rest) hpre
    have hone : renew_loop t (it :: rest) =
        ⟨some (RenewError.AuthError e), 1,
          [waitDurationSecs it.total_duration t]⟩ := by
      simp [renew_loop, hit, hres, RenewError.from_error]
    constructor
    · show (renew_loop t (pre ++ it :: rest)).result = _
      rw [h1, hone]
    · show (renew_loop t (pre ++ it :: rest)).renew_calls = _
      rw [h2, hone]
      simp
      omega

/-- Rounding to the nearest integer fixes every integer. -/
theorem roundTiesEven_intCast (n : Int) : roundTiesEven (n : Rat) = n := by
  simp [roundTiesEven]

/-- Every rational of the form m * 2^k with a 24-bit m, at or above the
bottom of the f32 normal range, is an exact f32 value: rounding it to
f32 returns it unchanged. -/
theorem roundF32_eq_self (q : Rat) (m : Nat) (k : Int)
    (hq : q = (m : Rat) * 2 ^ k) (hm : m < 2 ^ 24)
    (hlow : (2 : Rat) ^ (-126 : Int) ≤ q) :
    roundF32 q = q := by
  have htwo : ((2 : Nat) : Rat) = (2 : Rat) := by norm_num
  have hne : (2 : Rat) ≠ 0 := by norm_num
  have h2 : (0 : Rat) < 2 ^ (-126 : Int) := by positivity
  have hq0 : 0 < q := lt_of_lt_of_le h2 hlow
  have hm0 : 0 < m := by
    by_contra hz
    push_neg at hz
    interval_cases m
    rw [hq] at hq0
    norm_num at hq0
  have hlog_ge : (-126 : Int) ≤ Int.log 2 q := by
    have h126 : Int.log 2 ((2 : Rat) ^ (-126 : Int)) = (-126 : Int) := by
      rw [show ((2 : Rat) ^ (-126 : Int)) =
        (((2 : Nat) : Rat) ^ (-126 : Int)) by rw [htwo]]
      exact Int.log_zpow (by norm_num) (-126)
    calc (-126 : Int) = Int.log 2 ((2 : Rat) ^ (-126 : Int)) := h126.symm
      _ ≤ Int.log 2 q := Int.log_mono_right h2 hlow
  have hmax : max (Int.log 2 q) (-126) = Int.log 2 q := max_eq_left hlog_ge
  have hle : (2 : Rat) ^ Int.log 2 q ≤ q := by
    rw [← htwo]
    exact Int.zpow_log_le_self (by norm_num) hq0
  have hlt : q < (2 : Rat) ^ (Int.log 2 q + 1) := by
    rw [← htwo]
    exact Int.lt_zpow_succ_log_self (by norm_num) q
  have hmono : ∀ a b : Int, a ≤ b → (2 : Rat) ^ a ≤ (2 : Rat) ^ b := by
    intro a b hab
    exact zpow_le_zpow_right₀ (by norm_num) hab
  have hk_le : k ≤ Int.log 2 q := by
    by_contra hgt
    push_neg at hgt
    have hk1 : (2 : Rat) ^ k ≤ q := by
      rw [hq]
      have hm1 : (1 : Rat) ≤ (m : Rat) := by exact_mod_cast hm0
      nlinarith [zpow_pos (show (0 : Rat) < 2 by norm_num) k]
    have := hmono (Int.log 2 q + 1) k (by omega)
    linarith
  have hmlt : (m : Rat) < (2 : Rat) ^ (24 : Int) := by
    rw [show ((24 : Int)) = ((24 : Nat) : Int) by norm_num, zpow_natCast]
    exact_mod_cast hm
  have he_lt : Int.log 2 q < k + 24 := by
    by_contra hge
    push_neg at hge
    have hq_lt : q < (2 : Rat) ^ (k + 24) := by
      rw [zpow_add₀ hne, hq]
      have hpk : (0 : Rat) < (2 : Rat) ^ k := zpow_pos (by norm_num) k
      nlinarith
    have := hmono (k + 24) (Int.log 2 q) hge
    linarith
  have hd : 0 ≤ k + 23 - Int.log 2 q := by omega
  unfold roundF32
  rw [if_neg (not_le.mpr hq0), hmax]
  generalize hE : Int.log 2 q = E at hd ⊢
  have hscaled : q * 2 ^ (23 - E) =
      ((m * 2 ^ (k + 23 - E).toNat : Int) : Rat) := by
    push_cast
    rw [← zpow_natCast (2 : Rat) (k + 23 - E).toNat, Int.toNat_of_nonneg hd,
      hq, mul_assoc, ← zpow_add₀ hne,
      show k + (23 - E) = k + 23 - E from by ring]
  rw [hscaled, roundTiesEven_intCast]
  push_cast
  rw [← zpow_natCast (2 : Rat) (k + 23 - E).toNat, Int.toNat_of_nonneg hd,
    mul_assoc, ← zpow_add₀ hne,
    show k + 23 - E + (E - 23) = k from by ring, hq]

/-- Every rational of at least 1/4 is at or above the bottom of the f32
normal range. -/
theorem two_zpow_low_le (q : Rat) (h : 1 / 4 ≤ q) :
    (2 : Rat) ^ (-126 : Int) ≤ q := by
  have hq1 : (2 : Rat) ^ (-126 : Int) ≤ (2 : Rat) ^ (-2 : Int) :=
    zpow_le_zpow_right₀ (by norm_num) (by norm_num)
  have hq2 : (2 : Rat) ^ (-2 : Int) = 1 / 4 := by norm_num
  exact le_trans (le_trans hq1 (le_of_eq hq2)) h

/-- Every natural number below 2^24 is an exact f32 value. -/
theorem roundF32_natCast (n : Nat) (hn1 : 1 ≤ n) (hn2 : n < 2 ^ 24) :
    roundF32 (n : Rat) = (n : Rat) := by
  refine roundF32_eq_self _ n 0 (by rw [zpow_zero, mul_one]) hn2
    (two_zpow_low_le _ ?_)
  have : (1 : Rat) ≤ (n : Rat) := by exact_mod_cast hn1
  linarith

/-- The rational 1/4 is an exact f32 value. -/
theorem roundF32_quarter : roundF32 (1 / 4 : Rat) = 1 / 4 :=
  roundF32_eq_self _ 1 (-2) (by norm_num) (by norm_num)
    (two_zpow_low_le _ (by norm_num))

/-- The rational 1/2 is an exact f32 value. -/
theorem roundF32_half : roundF32 (1 / 2 : Rat) = 1 / 2 :=
  roundF32_eq_self _ 1 (-1) (by norm_num) (by norm_num)
    (two_zpow_low_le _ (by norm_num))

/-- C6 counterexample: with total validity 10 seconds and threshold 3/4
every f32 operation in the sleep computation is exact, the product is
5/2, and the as-u64 cast truncates it: the loop sleeps 2 whole seconds,
not the exact product 10 * (1 - 3/4) = 5/2 seconds the claim asserts. -/
theorem wait_duration_not_exact_product :
    ¬ (((waitDurationSecs 10 (3 / 4) : Nat) : Rat) =
        (10 : Rat) * (1 - 3 / 4)) := by
  have h : waitDurationSecs 10 (3 / 4) = 2 := by
    have rD : roundF32 ((10 : Nat) : Rat) = ((10 : Nat) : Rat) :=
      roundF32_natCast 10 (by norm_num) (by norm_num)
    have rW : roundF32 (1 - 3 / 4 : Rat) = 1 / 4 := by
      rw [show (1 - 3 / 4 : Rat) = 1 / 4 by norm_num]
      exact roundF32_quarter
    have rP : roundF32 (5 / 2 : Rat) = 5 / 2 :=
      roundF32_eq_self _ 5 (-1) (by norm_num) (by norm_num)
        (two_zpow_low_le _ (by norm_num))
    unfold waitDurationSecs
    rw [if_neg (by norm_num), rD, rW,
      show ((10 : Nat) : Rat) * (1 / 4) = 5 / 2 by norm_num, rP]
    norm_num
    rfl
  rw [h]
  norm_num

/-- C6 (amended): each iteration of the renewal loop with policy
Renew(threshold) and reported total validity D sleeps the u64
truncation of the f32 product f32(D) * f32(1 - threshold) seconds, not
the exact product; whenever the threshold lies in [0, 1], D fits in u64
and D, 1 - threshold and D * (1 - threshold) are exactly representable
in f32, the sleep is the integer truncation of D * (1 - threshold),
which never exceeds the exact product and falls short of it by less
than one second; with D = 3600 and threshold 0.75 every operation is
exact and the sleep is exactly 900 seconds. -/
theorem wait_duration_truncated (D : Nat) (t : Rat)
    (h0 : 0 ≤ t) (h1 : t ≤ 1) (hD64 : D < 2 ^ 64)
    (hD : roundF32 (D : Rat) = (D : Rat))
    (hw : roundF32 (1 - t) = 1 - t)
    (hp : roundF32 ((D : Rat) * (1 - t)) = (D : Rat) * (1 - t)) :
    ((waitDurationSecs D t : Nat) : Rat) ≤ (D : Rat) * (1 - t) ∧
    (D : Rat) * (1 - t) < ((waitDurationSecs D t : Nat) : Rat) + 1 ∧
    waitDurationSecs 3600 (3 / 4) = 900 ∧
    (renew_background (.Renew t) [⟨true, D, .ok ()⟩]).sleeps =
      [waitDurationSecs D t] := by
  have hbounds :
      ((waitDurationSecs D t : Nat) : Rat) ≤ (D : Rat) * (1 - t) ∧
      (D : Rat) * (1 - t) < ((waitDurationSecs D t : Nat) : Rat) + 1 := by
    by_cases ht : (1 : Rat) ≤ t
    · have ht1 : t = 1 := le_antisymm h1 ht
      subst ht1
      unfold waitDurationSecs
      rw [if_pos le_rfl]
      norm_num
    · have hx_le : (D : Rat) * (1 - t) ≤ (D : Rat) := by
        nlinarith [Nat.cast_nonneg (α := Rat) D]
      have hfl : ⌊(D : Rat) * (1 - t)⌋ ≤ (D : Int) := by
        calc ⌊(D : Rat) * (1 - t)⌋ ≤ ⌊(D : Rat)⌋ := Int.floor_le_floor hx_le
          _ = (D : Int) := Int.floor_natCast D
      have htn : (⌊(D : Rat) * (1 - t)⌋).toNat ≤ D := Int.toNat_le.mpr hfl
      have hwt : waitDurationSecs D t = (⌊(D : Rat) * (1 - t)⌋).toNat := by
        unfold waitDurationSecs
        rw [if_neg ht, hD, hw, hp]
        exact min_eq_left (by omega)
      have hx0 : (0 : Rat) ≤ (D : Rat) * (1 - t) :=
        mul_nonneg (Nat.cast_nonneg D) (by linarith)
      have hfl0 : (0 : Int) ≤ ⌊(D : Rat) * (1 - t)⌋ :=
        Int.floor_nonneg.mpr hx0
      have hcast : ((waitDurationSecs D t : Nat) : Rat) =
          ((⌊(D : Rat) * (1 - t)⌋ : Int) : Rat) := by
        rw [hwt]
        exact_mod_cast congrArg (fun z : Int => (z : Rat))
          (Int.toNat_of_nonneg hfl0)
      constructor
      · rw [hcast]
        exact Int.floor_le _
      · rw [hcast]
        exact Int.lt_floor_add_one _
  refine ⟨hbounds.1, hbounds.2, ?_, rfl⟩
  have rD : roundF32 ((3600 : Nat) : Rat) = ((3600 : Nat) : Rat) :=
    roundF32_natCast 3600 (by norm_num) (by norm_num)
  have rW : roundF32 (1 - 3 / 4 : Rat) = 1 / 4 := by
    rw [show (1 - 3 / 4 : Rat) = 1 / 4 by norm_num]
    exact roundF32_quarter
  have rP : roundF32 ((900 : Nat) : Rat) = ((900 : Nat) : Rat) :=
    roundF32_natCast 900 (by norm_num) (by norm_num)
  unfold waitDurationSecs
  rw [if_neg (by norm_num), rD, rW,
    show ((3600 : Nat) : Rat) * (1 / 4) = ((900 : Nat) : Rat) by
      push_cast; norm_num,
    rP]
  norm_num
  rfl

/-- Updating a thread location map reads back the new value at the
updated index. -/
theorem updLoc_self {n : Nat} (f : Fin n → Loc) (i : Fin n) (v : Loc) :
    updLoc f i v i = v := by
  simp [updLoc]

/-- Updating a thread location map leaves every other index unchanged. -/
theorem updLoc_other {n : Nat} (f : Fin n → Loc) (i j : Fin n) (v : Loc)
    (h : j ≠ i) : updLoc f i v j = f j := by
  simp [updLoc, h]

/-- The invariant holds in the initial configuration of the race. -/
theorem sfInv_init (n : Nat) : SfInv (sfInit n) := by
  refine ⟨fun _ i => ?_, fun i j hi _ => ?_,
    fun _ => ⟨rfl, rfl, fun _ => Or.inl rfl⟩, fun h => absurd rfl h⟩
  · simp [sfInit, gateLoc]
  · exact absurd hi (by simp [sfInit, gateLoc])

/-- The invariant is preserved by every step of the interleaving
semantics. -/
theorem sfInv_step {n : Nat} {s s2 : SfState n} (hinv : SfInv s)
    (hstep : SfStep s s2) : SfInv s2 := by
  obtain ⟨hlock, huniq, hzero, hone⟩ := hinv
  cases hstep with
  | fast_fresh i hl he =>
    dsimp only [SfInv]
    have hnc : s.net_calls ≠ 0 := by
      intro h0
      have := (hzero h0).1
      rw [he] at this
      exact Bool.noConfusion this
    obtain ⟨hc1, hc2, _⟩ := hone hnc
    refine ⟨fun hlf j hg => ?_, fun a b ha hb => ?_,
      fun h0 => absurd h0 hnc, fun _ => ⟨hc1, hc2, fun hexp => ?_⟩⟩
    · by_cases hj : j = i
      · subst hj
        rw [updLoc_self] at hg
        simp [gateLoc] at hg
      · rw [updLoc_other _ _ _ _ hj] at hg
        exact hlock hlf j hg
    · have key : ∀ x, gateLoc (updLoc s.loc i Loc.finished x) →
          gateLoc (s.loc x) := by
        intro x hx
        by_cases hxi : x = i
        · subst hxi
          rw [updLoc_self] at hx
          simp [gateLoc] at hx
        · rwa [updLoc_other _ _ _ _ hxi] at hx
      exact huniq a b (key a ha) (key b hb)
    · rw [he] at hexp
      exact Bool.noConfusion hexp
  | fast_expired i hl he =>
    dsimp only [SfInv]
    refine ⟨fun hlf j hg => ?_, fun a b ha hb => ?_, fun h0 => ?_,
      fun hnc => ?_⟩
    · by_cases hj : j = i
      · subst hj
        rw [updLoc_self] at hg
        simp [gateLoc] at hg
      · rw [updLoc_other _ _ _ _ hj] at hg
        exact hlock hlf j hg
    · have key : ∀ x, gateLoc (updLoc s.loc i Loc.waiting x) →
          gateLoc (s.loc x) := by
        intro x hx
        by_cases hxi : x = i
        · subst hxi
          rw [updLoc_self] at hx
          simp [gateLoc] at hx
        · rwa [updLoc_other _ _ _ _ hxi] at hx
      exact huniq a b (key a ha) (key b hb)
    · obtain ⟨z1, z2, z3⟩ := hzero h0
      refine ⟨z1, z2, fun j => ?_⟩
      by_cases hj : j = i
      · subst hj
        rw [updLoc_self]
        exact Or.inr (Or.inl rfl)
      · rw [updLoc_other _ _ _ _ hj]
        exact z3 j
    · obtain ⟨hc1, hc2, hc3⟩ := hone hnc
      refine ⟨hc1, hc2, fun hexp => ?_⟩
      obtain ⟨k, hk⟩ := hc3 hexp
      have hki : k ≠ i := by
        intro hh
        rw [hh, hl] at hk
        exact Loc.noConfusion hk
      exact ⟨k, by rw [updLoc_other _ _ _ _ hki]; exact hk⟩
  | acquire i hl hm =>
    dsimp only [SfInv]
    have hfree : ∀ j, ¬ gateLoc (s.loc j) := hlock hm
    refine ⟨fun hlf _ _ => ?_, fun a b ha hb => ?_, fun h0 => ?_,
      fun hnc => ?_⟩
    · exact Bool.noConfusion hlf
    · have key : ∀ x, gateLoc (updLoc s.loc i Loc.critical x) → x = i := by
        intro x hx
        by_cases hxi : x = i
        · exact hxi
        · rw [updLoc_other _ _ _ _ hxi] at hx
          exact absurd hx (hfree x)
      rw [key a ha, key b hb]
    · obtain ⟨z1, z2, z3⟩ := hzero h0
      refine ⟨z1, z2, fun j => ?_⟩
      by_cases hj : j = i
      · subst hj
        rw [updLoc_self]
        exact Or.inr (Or.inr rfl)
      · rw [updLoc_other _ _ _ _ hj]
        exact z3 j
    · obtain ⟨hc1, hc2, hc3⟩ := hone hnc
      refine ⟨hc1, hc2, fun hexp => ?_⟩
      obtain ⟨k, hk⟩ := hc3 hexp
      exact absurd (by rw [hk]; exact Or.inr (Or.inl rfl)) (hfree k)
  | recheck_fresh i hl he =>
    dsimp only [SfInv]
    have hnc : s.net_calls ≠ 0 := by
      intro h0
      have := (hzero h0).1
      rw [he] at this
      exact Bool.noConfusion this
    obtain ⟨hc1, hc2, _⟩ := hone hnc
    have hgi : gateLoc (s.loc i) := by
      rw [hl]
      exact Or.inl rfl
    refine ⟨fun hlf j hg => ?_, fun a b ha hb => ?_,
      fun h0 => absurd h0 hnc, fun _ => ⟨hc1, hc2, fun hexp => ?_⟩⟩
    · by_cases hj : j = i
      · subst hj
        rw [updLoc_self] at hg
        simp [gateLoc] at hg
      · rw [updLoc_other _ _ _ _ hj] at hg
        exact hj (huniq j i hg hgi)
    · exfalso
      by_cases hai : a = i
      · subst hai
        rw [updLoc_self] at ha
        simp [gateLoc] at ha
      · rw [updLoc_other _ _ _ _ hai] at ha
        exact hai (huniq a i ha hgi)
    · rw [he] at hexp
      exact Bool.noConfusion hexp
  | do_auth i hl he =>
    dsimp only [SfInv]
    have hgi : gateLoc (s.loc i) := by
      rw [hl]
      exact Or.inl rfl
    have hz : s.net_calls = 0 := by
      by_contra hnz
      obtain ⟨_, _, hc3⟩ := hone hnz
      obtain ⟨k, hk⟩ := hc3 he
      have hki : k = i :=
        huniq k i (by rw [hk]; exact Or.inr (Or.inl rfl)) hgi
      rw [hki, hl] at hk
      exact Loc.noConfusion hk
    refine ⟨fun hlf _ _ => ?_, fun a b ha hb => ?_, fun h0 => ?_,
      fun _ => ⟨?_, rfl, fun _ => ⟨i, updLoc_self _ _ _⟩⟩⟩
    · exact absurd hgi (hlock hlf i)
    · have key : ∀ x, gateLoc (updLoc s.loc i Loc.authDone x) → x = i := by
        intro x hx
        by_cases hxi : x = i
        · exact hxi
        · rw [updLoc_other _ _ _ _ hxi] at hx
          exact huniq x i hx hgi
      rw [key a ha, key b hb]
    · exact absurd h0 (Nat.succ_ne_zero _)
    · rw [hz]
  | publish_times i hl =>
    dsimp only [SfInv]
    have hgi : gateLoc (s.loc i) := by
      rw [hl]
      exact Or.inr (Or.inl rfl)
    have hnc : s.net_calls ≠ 0 := by
      intro h0
      have h3 := (hzero h0).2.2 i
      rw [hl] at h3
      rcases h3 with h | h | h <;> exact Loc.noConfusion h
    obtain ⟨hc1, hc2, _⟩ := hone hnc
    refine ⟨fun hlf _ _ => ?_, fun a b ha hb => ?_,
      fun h0 => absurd h0 hnc, fun _ => ⟨hc1, hc2, fun hexp => ?_⟩⟩
    · exact absurd hgi (hlock hlf i)
    · have key : ∀ x, gateLoc (updLoc s.loc i Loc.published x) → x = i := by
        intro x hx
        by_cases hxi : x = i
        · exact hxi
        · rw [updLoc_other _ _ _ _ hxi] at hx
          exact huniq x i hx hgi
      rw [key a ha, key b hb]
    · exact Bool.noConfusion hexp
  | release i hl =>
    dsimp only [SfInv]
    have hgi : gateLoc (s.loc i) := by
      rw [hl]
      exact Or.inr (Or.inr rfl)
    have hnc : s.net_calls ≠ 0 := by
      intro h0
      have h3 := (hzero h0).2.2 i
      rw [hl] at h3
      rcases h3 with h | h | h <;> exact Loc.noConfusion h
    obtain ⟨hc1, hc2, hc3⟩ := hone hnc
    refine ⟨fun _ j hg => ?_, fun a b ha hb => ?_,
      fun h0 => absurd h0 hnc, fun _ => ⟨hc1, hc2, fun hexp => ?_⟩⟩
    · by_cases hj : j = i
      · subst hj
        rw [updLoc_self] at hg
        simp [gateLoc] at hg
      · rw [updLoc_other _ _ _ _ hj] at hg
        exact hj (huniq j i hg hgi)
    · exfalso
      by_cases hai : a = i
      · subst hai
        rw [updLoc_self] at ha
        simp [gateLoc] at ha
      · rw [updLoc_other _ _ _ _ hai] at ha
        exact hai (huniq a i ha hgi)
    · exfalso
      obtain ⟨k, hk⟩ := hc3 hexp
      have hki : k = i :=
        huniq k i (by rw [hk]; exact Or.inr (Or.inl rfl)) hgi
      rw [hki, hl] at hk
      exact Loc.noConfusion hk

/-- The invariant holds in every configuration reachable from the
initial one. -/
theorem sfInv_reach {n : Nat} {s : SfState n}
    (h : SfReach (sfInit n) s) : SfInv s := by
  induction h with
  | refl => exact sfInv_init n
  | tail _ hstep ih => exact sfInv_step ih hstep

/-- C1: single-flight re-authentication.  For every group of n
concurrent callers racing one expired credential through check_session
under policy Reauth, in every interleaving in which all callers have
returned, exactly one login network call was made, the cached token is
the one newly issued by that single call (so all callers observe the
same fresh token), and the credential is no longer expired; the n - 1
callers that did not authenticate returned success without any further
network call. -/
theorem single_flight_reauth (n : Nat) (s : SfState n) (hn : 0 < n)
    (hreach : SfReach (sfInit n) s)
    (hdone : ∀ i, s.loc i = Loc.finished) :
    s.net_calls = 1 ∧ s.token_gen = 1 ∧ s.expired = false := by
  obtain ⟨_, _, hzero, hone⟩ := sfInv_reach hreach
  have hnc : s.net_calls ≠ 0 := by
    intro h0
    have h3 := (hzero h0).2.2 ⟨0, hn⟩
    rw [hdone ⟨0, hn⟩] at h3
    rcases h3 with h | h | h <;> exact Loc.noConfusion h
  obtain ⟨hc1, hc2, hc3⟩ := hone hnc
  refine ⟨hc1, hc2, ?_⟩
  cases hexp : s.expired with
  | false => rfl
  | true =>
    obtain ⟨k, hk⟩ := hc3 hexp
    rw [hdone k] at hk
    exact Loc.noConfusion hk

/-- Witness for C1: a concrete complete run of the race with one
thread, ending with exactly one login call made, the fresh token
cached and the credential valid. -/
theorem single_flight_reauth_witness :
    SfReach (sfInit 1) sfRun5 ∧ (∀ i, sfRun5.loc i = Loc.finished) ∧
    sfRun5.net_calls = 1 ∧ sfRun5.token_gen = 1 ∧
    sfRun5.expired = false := by
  have h1 : SfStep (sfInit 1) sfRun1 :=
    SfStep.fast_expired (sfInit 1) 0 (by decide) (by decide)
  have h2 : SfStep sfRun1 sfRun2 :=
    SfStep.acquire sfRun1 0 (by decide) (by decide)
  have h3 : SfStep sfRun2 sfRun3 :=
    SfStep.do_auth sfRun2 0 (by decide) (by decide)
  have h4 : SfStep sfRun3 sfRun4 :=
    SfStep.publish_times sfRun3 0 (by decide)
  have h5 : SfStep sfRun4 sfRun5 :=
    SfStep.release sfRun4 0 (by decide)
  have hr : SfReach (sfInit 1) sfRun5 :=
    Relation.ReflTransGen.tail (Relation.ReflTransGen.tail
      (Relation.ReflTransGen.tail (Relation.ReflTransGen.tail
        (Relation.ReflTransGen.single h1) h2) h3) h4) h5
  have hd : ∀ i, sfRun5.loc i = Loc.finished := by decide
  obtain ⟨w1, w2, w3⟩ := single_flight_reauth 1 sfRun5 (by decide) hr hd
  exact ⟨hr, hd, w1, w2, w3⟩

/-- Witness for the amended C6 at total validity 10, threshold 1/2:
every f32 operation is exact at this input. -/
theorem wait_duration_truncated_witness :
    ((waitDurationSecs 10 (1 / 2) : Nat) : Rat) ≤
      ((10 : Nat) : Rat) * (1 - 1 / 2) ∧
    ((10 : Nat) : Rat) * (1 - 1 / 2) <
      ((waitDurationSecs 10 (1 / 2) : Nat) : Rat) + 1 ∧
    waitDurationSecs 3600 (3 / 4) = 900 ∧
    (renew_background (.Renew (1 / 2)) [⟨true, 10, .ok ()⟩]).sleeps =
      [waitDurationSecs 10 (1 / 2)] :=
  wait_duration_truncated 10 (1 / 2) (by norm_num) (by norm_num)
    (by norm_num)
    (roundF32_natCast 10 (by norm_num) (by norm_num))
    (by rw [show (1 - 1 / 2 : Rat) = 1 / 2 by norm_num]
        exact roundF32_half)
    (by rw [show ((10 : Nat) : Rat) * (1 - 1 / 2) = ((5 : Nat) : Rat) by
          push_cast; norm_num]
        exact roundF32_natCast 5 (by norm_num) (by norm_num))

end HcVault
